import Mathlib

/-!
Verification of the move-search and win-detection engine of a K-in-a-row
game program (`ai.py`, `game_base.py`, `game_easy.py`, `game_insane.py`,
`game_manager.py`).

The Python code is shallowly embedded: boards are lists of lists of
optional marks, Python `while` loops over ray scans become fueled
recursions (the fuel, one board side length, dominates the number of
in-range steps of any ray), in-place mutate-then-restore probes become
pure probes on an updated copy, `float` arithmetic is modelled by exact
rationals, `float('inf')`/`-float('inf')` by a dedicated `Score` type,
`random.random() < 0.5` by a boolean parameter, `random.choice` by an
index parameter, and `time.time() - start > max_time` checks by a
boolean oracle indexed by the order in which the checks run.  Python
exceptions (`ValueError`, `TypeError` from tuple-unpacking a
`MoveEvaluation`, `IndexError`) are modelled with `Except`.
-/

/-- The two marks a player can use; Python passes the strings `X` and `O`. -/
inductive Player where
  | X : Player
  | O : Player
deriving DecidableEq, Repr

/-- Opponent of a mark, the Python idiom `'X' if player == 'O' else 'O'`. -/
def Player.other : Player → Player
  | .X => .O
  | .O => .X

/-- A board cell: `none` is Python `None`, `some p` a placed mark. -/
abbrev Cell := Option Player

/-- A board is a list of rows, as the Python `List[List[Optional[str]]]`. -/
abbrev Board := List (List Cell)

/-- Python exceptions that the embedded code can raise. -/
inductive PyErr where
  | valueError : PyErr
  | typeError : PyErr
  | indexError : PyErr
deriving DecidableEq, Repr

/-- Read `board[r][c]` for indices already known to be in range
(Python code only does this under a bounds guard or a `range` loop). -/
def getCell (b : Board) (r c : Nat) : Cell :=
  (b.getD r []).getD c none

/-- Read `board[r][c]` at possibly signed indices, used only under the
scan guards `0 <= r < len(board) and 0 <= c < len(board)`. -/
def getCellI (b : Board) (r c : Int) : Cell :=
  if 0 ≤ r ∧ 0 ≤ c then getCell b r.toNat c.toNat else none

/-- Bounds guard `0 <= r < len(board) and 0 <= c < len(board)` of the
Python scan loops (note both sides are compared against the row count). -/
def inB (n : Nat) (r c : Int) : Bool :=
  decide (0 ≤ r) && decide (r < (n : Int)) && decide (0 ≤ c) && decide (c < (n : Int))

/-- Write mark `v` at `board[r][c]`; models the in-place assignment on a copy. -/
def setCell (b : Board) (r c : Nat) (v : Cell) : Board :=
  b.set r ((b.getD r []).set c v)

/-- Row-major list of all coordinates of an `n`-sided board, the iteration
order of the nested `for r in range(size): for c in range(size)` loops. -/
def coords (n : Nat) : List (Nat × Nat) :=
  (List.range n).flatMap (fun r => (List.range n).map (fun c => (r, c)))

/-- Length of the maximal matching prefix of the ray that starts at `(r, c)`
and steps by `(dr, dc)`; this is the count accumulated by one Python
`while 0 <= r < len(board) and 0 <= c < len(board) and board[r][c] == player`
loop in `_check_win`.  The fuel bounds the iteration count; one board side
length is always enough because every scan direction moves one coordinate
monotonically through `[0, n)`. -/
def runCount (b : Board) (p : Player) (fuel : Nat) (r c dr dc : Int) : Nat :=
  match fuel with
  | 0 => 0
  | fuel + 1 =>
    if inB b.length r c && (getCellI b r c == some p) then
      runCount b p fuel (r + dr) (c + dc) dr dc + 1
    else 0

/-- The four scan directions `[(0,1),(1,0),(1,1),(1,-1)]` of the source. -/
def directions : List (Int × Int) :=
  [(0, 1), (1, 0), (1, 1), (1, -1)]

/-- Embeds `AIPlayer._check_win`: starting from count 1 at `(row, col)`,
extend a run of `player` cells forward and backward along each of the four
directions and report whether any direction reaches `required`. -/
def checkWin (b : Board) (p : Player) (row col : Int) (required : Nat) : Bool :=
  directions.any (fun d =>
    required ≤ 1 + runCount b p b.length (row + d.1) (col + d.2) d.1 d.2
      + runCount b p b.length (row - d.1) (col - d.2) (-d.1) (-d.2))

/-- Matching-prefix length for `_check_potential`, where a cell extends the
run if it equals `player` or is empty. -/
def runCountPot (b : Board) (p : Player) (fuel : Nat) (r c dr dc : Int) : Nat :=
  match fuel with
  | 0 => 0
  | fuel + 1 =>
    if inB b.length r c && (getCellI b r c == some p || getCellI b r c == none) then
      runCountPot b p fuel (r + dr) (c + dc) dr dc + 1
    else 0

/-- Embeds `AIPlayer._check_potential`: like `_check_win`, but cells that
are either `player` or empty extend the run. -/
def checkPotential (b : Board) (p : Player) (row col : Int) (required : Nat) : Bool :=
  directions.any (fun d =>
    required ≤ 1 + runCountPot b p b.length (row + d.1) (col + d.2) d.1 d.2
      + runCountPot b p b.length (row - d.1) (col - d.2) (-d.1) (-d.2))

/-- Embeds `AIPlayer._get_winning_move`: scan cells in row-major order and
return the first empty cell at which placing `p` completes a winning line
(the Python code places the mark, checks, and restores; the net effect is a
pure probe on the updated board). -/
def getWinningMove (b : Board) (p : Player) (required : Nat) : Option (Nat × Nat) :=
  (coords b.length).find? (fun rc =>
    (getCell b rc.1 rc.2 == none)
      && checkWin (setCell b rc.1 rc.2 (some p)) p rc.1 rc.2 required)

/-- Addition of exact rationals, written through `mkRat` so that concrete
engine runs reduce inside the kernel; `qadd_eq` identifies it with the
ordinary rational addition. -/
def qadd (a b : ℚ) : ℚ :=
  mkRat (a.num * b.den + b.num * a.den) (a.den * b.den)

/-- Multiplication of exact rationals through `mkRat`; see `qmul_eq`. -/
def qmul (a b : ℚ) : ℚ :=
  mkRat (a.num * b.num) (a.den * b.den)

/-- Subtraction of exact rationals through `mkRat`; see `qsub_eq`. -/
def qsub (a b : ℚ) : ℚ :=
  qadd a (-b)

/-- Division of an exact rational by a natural number through `mkRat`;
see `qdivN_eq`. -/
def qdivN (a : ℚ) (n : Nat) : ℚ :=
  mkRat a.num (a.den * n)

/-- Python float scores: a rational value or one of the two infinities
(`float('inf')` and `-float('inf')`); rationals model the exact value of
the float expressions the engine builds from small sums of tenths. -/
inductive Score where
  | negInf : Score
  | val : ℚ → Score
  | posInf : Score
deriving DecidableEq, Repr

/-- Negation of a score, as Python unary minus on floats. -/
def Score.neg : Score → Score
  | .negInf => .posInf
  | .posInf => .negInf
  | .val q => .val (-q)

/-- Comparison `a <= b` on scores, as Python float comparison. -/
def Score.le : Score → Score → Bool
  | .negInf, _ => true
  | _, .posInf => true
  | .posInf, _ => false
  | .val a, .val b => decide (a ≤ b)
  | .val _, .negInf => false

/-- Comparison `a < b` on scores. -/
def Score.lt (a b : Score) : Bool :=
  !(Score.le b a)

/-- Python `max(a, b)`, which returns the first argument on ties. -/
def Score.pymax (a b : Score) : Score :=
  if Score.le b a then a else b

/-- An element of the list `_get_ordered_moves` returns: the normal path
yields plain `(row, col)` tuples, but the immediate-win branch yields a
`MoveEvaluation` dataclass object, which callers cannot tuple-unpack. -/
inductive MoveItem where
  | tup : Nat × Nat → MoveItem
  | evalObj : Nat → Nat → Score → MoveItem
deriving DecidableEq, Repr

/-- The `win_requirements` table `{3: 3, 4: 4, 5: 5, 6: 5}` read with
`.get(size, 3)`. -/
def winReq (n : Nat) : Nat :=
  match n with
  | 3 => 3
  | 4 => 4
  | 5 => 5
  | 6 => 5
  | _ => 3

/-- The `depth_limits` table for difficulty levels 1-10. -/
def depthLimit (level : Nat) : Nat :=
  match level with
  | 1 => 0
  | 2 => 1
  | 3 => 1
  | 4 => 2
  | 5 => 2
  | 6 => 3
  | 7 => 4
  | 8 => 5
  | 9 => 6
  | 10 => 7
  | _ => 0

/-- Row-major list of the empty cells of a board, the order in which all
the Python scans enumerate candidate moves. -/
def emptyCells (b : Board) : List (Nat × Nat) :=
  (coords b.length).filter (fun rc => getCell b rc.1 rc.2 == none)

/-- Score of one empty cell in `_get_ordered_moves`:
`center_score = (size - max(|r - center|, |c - center|)) / size` plus `0.5`
for each mark whose placement at the cell keeps a potential line. -/
def orderScore (b : Board) (required : Nat) (r c : Nat) : ℚ :=
  let n := b.length
  let center := n / 2
  let dist := max ((r : Int) - center).natAbs ((c : Int) - center).natAbs
  let centerScore : ℚ := qdivN (qsub (n : ℚ) (dist : ℚ)) n
  let potX : ℚ :=
    if checkPotential (setCell b r c (some .X)) .X r c required then mkRat 1 2 else 0
  let potO : ℚ :=
    if checkPotential (setCell b r c (some .O)) .O r c required then mkRat 1 2 else 0
  qadd centerScore (qadd (qadd 0 potX) potO)

/-- Embeds `AIPlayer._get_ordered_moves`.  If either mark (checked in the
fixed order `['X', 'O']`) has an immediate winning move, the function
returns a single `MoveEvaluation` object with infinite score; otherwise it
scores every empty cell (appended in row-major order), sorts the
evaluations by score in descending order with Python's stable `sort`
(modelled by the stable insertion sort, which agrees with every stable
sort under a total preorder), and returns the plain coordinate tuples. -/
def getOrderedMoves (b : Board) (required : Nat) : List MoveItem :=
  match getWinningMove b .X required with
  | some m => [.evalObj m.1 m.2 .posInf]
  | none =>
    match getWinningMove b .O required with
    | some m => [.evalObj m.1 m.2 .posInf]
    | none =>
      let scored : List ((Nat × Nat) × ℚ) :=
        (emptyCells b).map (fun rc => (rc, orderScore b required rc.1 rc.2))
      let sorted := scored.insertionSort (fun x y => y.2 ≤ x.2)
      sorted.map (fun e => .tup e.1)

/-- Embeds `AIPlayer._count_potential_lines`: the number of empty cells at
which placing `p` keeps a potential line of length `required`. -/
def countPotentialLines (b : Board) (p : Player) (required : Nat) : Nat :=
  ((coords b.length).filter (fun rc =>
    (getCell b rc.1 rc.2 == none)
      && checkPotential (setCell b rc.1 rc.2 (some p)) p rc.1 rc.2 required)).length

/-- Embeds `AIPlayer._advanced_evaluate`: `+1`/`-1` if the mark (or its
opponent) has an immediate winning move, otherwise a row-major
accumulation, over every empty cell, of `0.1` times the potential-line
count after placing the mark there minus `0.1` times the count after
placing the opponent there. -/
def advancedEvaluate (b : Board) (p : Player) (required : Nat) : ℚ :=
  if (getWinningMove b p required).isSome then 1
  else if (getWinningMove b p.other required).isSome then -1
  else
    (coords b.length).foldl (fun score rc =>
      if getCell b rc.1 rc.2 == none then
        qsub
          (qadd score (qmul (mkRat 1 10)
            (countPotentialLines (setCell b rc.1 rc.2 (some p)) p required : ℚ)))
          (qmul (mkRat 1 10)
            (countPotentialLines (setCell b rc.1 rc.2 (some p.other)) p.other required : ℚ))
      else score) 0

/-- Embeds `AIPlayer._simple_evaluate`: scan cells in row-major order and
return `1` at the first cell of `p` that lies on a completed line (or `-1`
for the opponent, checked second at each cell); otherwise the difference
between the two marks' potential-line counts. -/
def simpleEvaluate (b : Board) (p : Player) (required : Nat) : Int :=
  match (coords b.length).findSome? (fun rc =>
    if getCell b rc.1 rc.2 == some p && checkWin b p rc.1 rc.2 required then some (1 : Int)
    else if getCell b rc.1 rc.2 == some p.other && checkWin b p.other rc.1 rc.2 required then
      some (-1 : Int)
    else none) with
  | some v => v
  | none =>
    (countPotentialLines b p required : Int) - (countPotentialLines b p.other required : Int)

/-- Embeds `AIPlayer._get_random_move`: raise `ValueError` on a full board,
otherwise return the element of the row-major empty-cell list that the
`random.choice` oracle index selects. -/
def getRandomMove (b : Board) (ridx : Nat) : Except PyErr (Nat × Nat) :=
  match emptyCells b with
  | [] => .error .valueError
  | e :: es => .ok ((e :: es).getD (ridx % (e :: es).length) e)

/-- Embeds `AIPlayer._get_basic_strategy_move` for levels 2-3: with
probability one half (the `coin` oracle) a random move; else the center if
free; else the first cell in row-major order whose occupation by `p` keeps
a potential line; else a random move. -/
def getBasicStrategyMove (b : Board) (p : Player) (required : Nat) (coin : Bool) (ridx : Nat) :
    Except PyErr (Nat × Nat) :=
  if coin then getRandomMove b ridx
  else
    let center := b.length / 2
    if getCell b center center == none then .ok (center, center)
    else
      match (coords b.length).find? (fun rc =>
        (getCell b rc.1 rc.2 == none)
          && checkPotential (setCell b rc.1 rc.2 (some p)) p rc.1 rc.2 required) with
      | some rc => .ok rc
      | none => getRandomMove b ridx

/-- Move loop of `AIPlayer._negamax` for one node: tuple-unpack each
ordered move (raising `TypeError` on a `MoveEvaluation` object), probe the
empty ones through `rec` (the search at one less depth), fold the negated
child score into the running maximum and into `alpha`, and break on
`alpha >= beta`, returning the running maximum. -/
def negamaxLoop (rec : Board → Score → Score → Player → Except PyErr Score) (b : Board)
    (p : Player) (beta : Score) :
    List MoveItem → Score → Score → Except PyErr Score
  | [], maxScore, _ => .ok maxScore
  | item :: rest, maxScore, alpha =>
    match item with
    | .evalObj _ _ _ => .error .typeError
    | .tup rc =>
      if getCell b rc.1 rc.2 == none then
        match rec (setCell b rc.1 rc.2 (some p)) beta.neg alpha.neg p.other with
        | .error e => .error e
        | .ok child =>
          let score := child.neg
          let maxScore1 := Score.pymax maxScore score
          let alpha1 := Score.pymax alpha score
          if Score.le beta alpha1 then .ok maxScore1
          else negamaxLoop rec b p beta rest maxScore1 alpha1
      else negamaxLoop rec b p beta rest maxScore alpha

/-- Embeds `AIPlayer._negamax`.  The terminal test calls `_check_win` at
the off-board coordinates `(-1, -1)`, exactly as the source does; at depth
zero the heuristic evaluation is returned, and otherwise the move loop
runs with a fresh `-inf` running maximum. -/
def negamax (required : Nat) : Nat → Board → Score → Score → Player → Except PyErr Score
  | depth, b, alpha, beta, p =>
    if checkWin b p.other (-1) (-1) required then .ok (.val (-1))
    else
      match depth with
      | 0 => .ok (.val (advancedEvaluate b p required))
      | d + 1 =>
        negamaxLoop (fun b1 a1 b2 p1 => negamax required d b1 a1 b2 p1) b p beta
          (getOrderedMoves b required) .negInf alpha

/-- Move loop of `AIPlayer._get_advanced_move`: per iteration the move is
tuple-unpacked first, then the time oracle is consulted (a timeout breaks
and returns the best move so far), then the empty cells are probed with
`_simple_evaluate`; a strictly better score replaces the best move, and a
score of exactly `1` breaks immediately. -/
def advancedLoop (b : Board) (p : Player) (required : Nat) (tmo : Nat → Bool) :
    List MoveItem → Nat → Score → MoveItem → Except PyErr MoveItem
  | [], _, _, best => .ok best
  | item :: rest, i, bestScore, best =>
    match item with
    | .evalObj _ _ _ => .error .typeError
    | .tup rc =>
      if tmo i then .ok best
      else if getCell b rc.1 rc.2 == none then
        let score : Score := .val ((simpleEvaluate (setCell b rc.1 rc.2 (some p)) p required : Int) : ℚ)
        if Score.lt bestScore score then
          if score == Score.val 1 then .ok (.tup rc)
          else advancedLoop b p required tmo rest (i + 1) score (.tup rc)
        else advancedLoop b p required tmo rest (i + 1) bestScore best
      else advancedLoop b p required tmo rest (i + 1) bestScore best

/-- Embeds `AIPlayer._get_advanced_move` (difficulty levels 4-6): take the
ordered moves, default the best move to the head (or `(0, 0)` when the
list is empty), return it outright when the board has fewer than three
marks, and otherwise run the evaluation loop. -/
def getAdvancedMove (b : Board) (p : Player) (required : Nat) (tmo : Nat → Bool) :
    Except PyErr MoveItem :=
  let moves := getOrderedMoves b required
  let best : MoveItem := match moves.head? with
    | some item => item
    | none => .tup (0, 0)
  let emptyCount := (emptyCells b).length
  if ((b.length * b.length : Nat) : Int) - 3 < (emptyCount : Int) then .ok best
  else advancedLoop b p required tmo moves 0 .negInf best

/-- Root move loop of `AIPlayer._get_expert_move` at one depth: each move
is tuple-unpacked (raising `TypeError` on a `MoveEvaluation` object), each
empty cell is probed with `_negamax` over the full window, a strictly
better score replaces the best move, and a score of exactly `1` returns it
from the whole search.  The result tags whether the early `return`
happened (`Sum.inl`) or the loop ran out (`Sum.inr`). -/
def expertInner (b : Board) (p : Player) (required : Nat) (depth : Nat) :
    List MoveItem → Score → MoveItem → Except PyErr (Sum MoveItem (Score × MoveItem))
  | [], bestScore, best => .ok (.inr (bestScore, best))
  | item :: rest, bestScore, best =>
    match item with
    | .evalObj _ _ _ => .error .typeError
    | .tup rc =>
      if getCell b rc.1 rc.2 == none then
        match negamax required (depth - 1) (setCell b rc.1 rc.2 (some p)) .negInf .posInf p.other with
        | .error e => .error e
        | .ok child =>
          let score := child.neg
          if Score.lt bestScore score then
            if score == Score.val 1 then .ok (.inl (.tup rc))
            else expertInner b p required depth rest score (.tup rc)
          else expertInner b p required depth rest bestScore best
      else expertInner b p required depth rest bestScore best

/-- Iterative-deepening loop of `AIPlayer._get_expert_move` over the depth
list `range(1, depth_limit + 1)`: before each depth the time oracle is
consulted (a timeout breaks with the best move so far), and the best score
and best move persist across depths. -/
def expertDepths (b : Board) (p : Player) (required : Nat) (tmo : Nat → Bool)
    (moves : List MoveItem) :
    List Nat → Score → MoveItem → Except PyErr MoveItem
  | [], _, best => .ok best
  | depth :: rest, bestScore, best =>
    if tmo depth then .ok best
    else
      match expertInner b p required depth moves bestScore best with
      | .error e => .error e
      | .ok (.inl winMove) => .ok winMove
      | .ok (.inr (bestScore1, best1)) =>
        expertDepths b p required tmo moves rest bestScore1 best1

/-- Embeds `AIPlayer._get_expert_move` (difficulty levels 7-10). -/
def getExpertMove (b : Board) (p : Player) (required : Nat) (level : Nat) (tmo : Nat → Bool) :
    Except PyErr MoveItem :=
  let moves := getOrderedMoves b required
  let best : MoveItem := match moves.head? with
    | some item => item
    | none => .tup (0, 0)
  expertDepths b p required tmo moves (List.range' 1 (depthLimit level)) .negInf best

/-- Embeds `AIPlayer.get_move`, the engine entry point: validate the board
shape (Python compares the row count only with the first row's length),
always probe for an immediate win for the mover then for the opponent, and
otherwise dispatch to the difficulty tier.  `coin`, `ridx`, and `tmo` are
the oracles for `random.random`, `random.choice`, and the wall-clock
timeout checks. -/
def getMove (level : Nat) (b : Board) (p : Player) (coin : Bool) (ridx : Nat)
    (tmo : Nat → Bool) : Except PyErr MoveItem :=
  if b.length = 0 ∨ b.length ≠ (b.headD []).length then .error .valueError
  else
    let required := winReq b.length
    match getWinningMove b p required with
    | some m => .ok (.tup m)
    | none =>
      match getWinningMove b p.other required with
      | some m => .ok (.tup m)
      | none =>
        if level = 1 then (getRandomMove b ridx).map .tup
        else if level ≤ 3 then (getBasicStrategyMove b p required coin ridx).map .tup
        else if level ≤ 6 then getAdvancedMove b p required tmo
        else getExpertMove b p required level tmo

/-- Resolve a Python list index of signed value `i` against length `n`:
values in `[0, n)` are used as is, values in `[-n, 0)` count from the end,
and anything else raises `IndexError`. -/
def pyIdx (n : Nat) (i : Int) : Except PyErr Nat :=
  if 0 ≤ i ∧ i < (n : Int) then .ok i.toNat
  else if -(n : Int) ≤ i ∧ i < 0 then .ok ((n : Int) + i).toNat
  else .error .indexError

/-- Read `board[r][c]` with full Python indexing semantics (negative
aliasing, `IndexError` out of `[-len, len)`). -/
def pyGetCell (b : Board) (r c : Int) : Except PyErr Cell :=
  match pyIdx b.length r with
  | .error e => .error e
  | .ok ri =>
    match pyIdx (b.getD ri []).length c with
    | .error e => .error e
    | .ok ci => .ok ((b.getD ri []).getD ci none)

/-- Write `board[r][c] = v` with full Python indexing semantics. -/
def pySetCell (b : Board) (r c : Int) (v : Cell) : Except PyErr Board :=
  match pyIdx b.length r with
  | .error e => .error e
  | .ok ri =>
    match pyIdx (b.getD ri []).length c with
    | .error e => .error e
    | .ok ci => .ok (b.set ri ((b.getD ri []).set ci v))

/-- The mutable state of `BaseGameLogic`: board, mover, terminal flag,
winner, and the winning-cell list (cell coordinates are kept as signed
integers because `check_win` receives the raw move coordinates). -/
structure GameState where
  size : Nat
  board : Board
  current_player : Player
  game_over : Bool
  winner : Option Player
  winning_cells : List (Int × Int)
deriving DecidableEq, Repr

/-- Embeds `BaseGameLogic.check_draw`: every cell of every row is filled. -/
def checkDrawB (b : Board) : Bool :=
  b.all (fun row => row.all (fun cell => cell != none))

/-- Embeds `BaseGameLogic.make_move`, parameterised by the subclass
`check_win` (which reports the winning cells when the move wins).  The
`game_over` test short-circuits before any board access; an occupied
target rejects the move; otherwise the mark is placed, the win and draw
checks run, and the mover flips only when the game continues. -/
def makeMove (cw : Board → Int → Int → Except PyErr (Option (List (Int × Int))))
    (g : GameState) (row col : Int) : Except PyErr (GameState × Bool) :=
  if g.game_over then .ok (g, false)
  else
    match pyGetCell g.board row col with
    | .error e => .error e
    | .ok cell =>
      if cell ≠ none then .ok (g, false)
      else
        match pySetCell g.board row col (some g.current_player) with
        | .error e => .error e
        | .ok board1 =>
          match cw board1 row col with
          | .error e => .error e
          | .ok (some cells) =>
            let g1 := { g with board := board1 }
            let g2 := { g1 with game_over := true }
            let g3 := { g2 with winner := some g.current_player }
            .ok ({ g3 with winning_cells := cells }, true)
          | .ok none =>
            if checkDrawB board1 then
              let g1 := { g with board := board1 }
              .ok ({ g1 with game_over := true }, true)
            else
              let g1 := { g with board := board1 }
              .ok ({ g1 with current_player := g.current_player.other }, true)

/-- Embeds `BaseGameLogic.reset`: a fresh empty board, mover `X`, no
winner, no winning cells. -/
def resetGame (g : GameState) : GameState :=
  { size := g.size
    board := List.replicate g.size (List.replicate g.size none)
    current_player := .X
    game_over := false
    winner := none
    winning_cells := [] }

/-- Embeds `EasyGame.check_win` (3x3 rules): full-row, full-column and
full-diagonal tests through the cell just played, with Python indexing for
the raw coordinates. -/
def easyCheckWin (size : Nat) (b : Board) (row col : Int) :
    Except PyErr (Option (List (Int × Int))) := do
  let player ← pyGetCell b row col
  let rowAll ← (List.range size).allM (fun c => do
    let v ← pyGetCell b row (c : Int)
    pure (v == player))
  if rowAll then
    pure (some ((List.range size).map (fun c => (row, (c : Int)))))
  else
    let colAll ← (List.range size).allM (fun r => do
      let v ← pyGetCell b (r : Int) col
      pure (v == player))
    if colAll then
      pure (some ((List.range size).map (fun r => ((r : Int), col))))
    else
      let d1 ← (if row = col then
          (List.range size).allM (fun i => do
            let v ← pyGetCell b (i : Int) (i : Int)
            pure (v == player))
        else pure false)
      if d1 then
        pure (some ((List.range size).map (fun i => ((i : Int), (i : Int)))))
      else
        let d2 ← (if row + col = (size : Int) - 1 then
            (List.range size).allM (fun (i : Nat) => do
              let v ← pyGetCell b (i : Int) (Int.ofNat (size - 1 - i))
              pure (v == player))
          else pure false)
        if d2 then
          pure (some ((List.range size).map
            (fun (i : Nat) => ((i : Int), Int.ofNat (size - 1 - i)))))
        else pure none

/-- Matching ray of cell positions for `InsaneGame.check_win`, collecting
the cells the Python loop appends; the match is against the raw cell value
read at the move coordinates (which Python allows to be `None`). -/
def runCells (b : Board) (size : Nat) (pl : Cell) (fuel : Nat) (r c dr dc : Int) :
    List (Int × Int) :=
  match fuel with
  | 0 => []
  | fuel + 1 =>
    if inB size r c && (getCellI b r c == pl) then
      (r, c) :: runCells b size pl fuel (r + dr) (c + dc) dr dc
    else []

/-- Embeds `InsaneGame.check_win`: scan the four directions from the move,
counting the move cell plus both matching rays, and report the first
direction whose count reaches the hard-coded `6` (not the engine's
relaxed requirement of 5 for 6x6 boards). -/
def insaneCheckWin (size : Nat) (b : Board) (row col : Int) :
    Except PyErr (Option (List (Int × Int))) := do
  let player ← pyGetCell b row col
  pure (directions.findSome? (fun d =>
    let fwd := runCells b size player size (row + d.1) (col + d.2) d.1 d.2
    let bwd := runCells b size player size (row - d.1) (col - d.2) (-d.1) (-d.2)
    if 6 ≤ 1 + fwd.length + bwd.length then some ((row, col) :: (fwd ++ bwd))
    else none))

/-- The `Move` dataclass constructor of `game_manager.py`: its
`__post_init__` validation raises `ValueError` on negative coordinates. -/
def moveMk (r c : Int) : Except PyErr (Int × Int) :=
  if r < 0 ∨ c < 0 then .error .valueError else .ok (r, c)

/-- The mutable state of `GameManager` that `reset` touches. -/
structure Manager where
  game : GameState
  last_move : Option (Int × Int)
deriving DecidableEq, Repr

/-- Embeds `GameManager.reset`: reset the underlying game, then build
`Move(-1, -1)` for `last_move`.  The constructor raises, so the returned
pair carries both the state as it is left behind (game already reset,
`last_move` untouched) and the escaping exception. -/
def managerReset (m : Manager) : Manager × Except PyErr Unit :=
  let g1 := resetGame m.game
  match moveMk (-1) (-1) with
  | .error e => ({ game := g1, last_move := m.last_move }, .error e)
  | .ok mv => ({ game := g1, last_move := some mv }, .ok ())

/-- Row-major rank of a coordinate pair on an `n`-sided board, used to
state the tie-breaking order of the move sorter. -/
def rmIdx (n : Nat) (rc : Nat × Nat) : Nat :=
  rc.1 * n + rc.2

/-- Specification-side predicate: the mark already has a completed winning
line on the board, read off as some cell of the mark through which the
line detector reports a run of the required length. -/
def hasWinningLine (b : Board) (m : Player) (required : Nat) : Bool :=
  (coords b.length).any (fun rc =>
    (getCell b rc.1 rc.2 == some m) && checkWin b m rc.1 rc.2 required)

/-- Specification-side evaluator stated by the spec for
`_advanced_evaluate`: terminal `+1`/`-1` when a mark already has a winning
line, and otherwise one tenth of the difference of the two marks'
potential-line counts on the unchanged board. -/
def evaluateSpec (b : Board) (m : Player) (required : Nat) : ℚ :=
  if hasWinningLine b m required then 1
  else if hasWinningLine b m.other required then -1
  else (1/10 : ℚ) * ((countPotentialLines b m required : ℚ)
    - (countPotentialLines b m.other required : ℚ))

/-- Closed form of what `_advanced_evaluate` actually computes outside its
immediate-win branches: one tenth of the sum, over the empty cells, of the
difference between the potential-line count after placing the mark at the
cell and the count after placing the opponent there. -/
def advancedEvaluateAmended (b : Board) (p : Player) (required : Nat) : ℚ :=
  if (getWinningMove b p required).isSome then 1
  else if (getWinningMove b p.other required).isSome then -1
  else (1/10 : ℚ) * ((((emptyCells b).map (fun rc =>
    (countPotentialLines (setCell b rc.1 rc.2 (some p)) p required : ℤ)
      - (countPotentialLines (setCell b rc.1 rc.2 (some p.other)) p.other required : ℤ))).sum : ℚ))

/-- Specification-side per-cell score of the move orderer, written with
ordinary rational arithmetic as in the spec text. -/
def specScore (b : Board) (required : Nat) (rc : Nat × Nat) : ℚ :=
  ((b.length : ℚ)
      - (max ((rc.1 : Int) - (b.length / 2 : Nat)).natAbs
          ((rc.2 : Int) - (b.length / 2 : Nat)).natAbs : ℚ)) / (b.length : ℚ)
    + (if checkPotential (setCell b rc.1 rc.2 (some .X)) .X rc.1 rc.2 required
        then (1/2 : ℚ) else 0)
    + (if checkPotential (setCell b rc.1 rc.2 (some .O)) .O rc.1 rc.2 required
        then (1/2 : ℚ) else 0)

/-- Specification-side predicate: the cell at signed coordinates is on the
board and holds the mark. -/
def matchAt (b : Board) (m : Player) (r c : Int) : Prop :=
  inB b.length r c = true ∧ getCellI b r c = some m

/-- Specification-side predicate of the spec's line-detection sentence: a
contiguous run of the mark through `(row, col)` in direction `d`,
extending `f` cells forward and `bk` cells backward. -/
def RunThrough (b : Board) (m : Player) (row col : Int) (d : Int × Int) (f bk : Nat) : Prop :=
  (∀ i : Nat, 1 ≤ i → i ≤ f → matchAt b m (row + i * d.1) (col + i * d.2)) ∧
  (∀ j : Nat, 1 ≤ j → j ≤ bk → matchAt b m (row - j * d.1) (col - j * d.2))

/-- A 3x3 board where the mover `X` can win at once at `(0, 2)` and the
opponent `O` can win at once at `(1, 2)`. -/
def demoWinBoard : Board :=
  [[some .X, some .X, none], [some .O, some .O, none], [none, none, none]]

/-- A 3x3 board on which `X` has a completed top-row winning line. -/
def demoFinishedBoard : Board :=
  [[some .X, some .X, some .X], [some .O, some .O, none], [none, none, none]]

/-- A 3x3 board with a single `O` in the center; expert-level search on it
reaches a position whose ordered-move list is a `MoveEvaluation` object. -/
def demoCenterBoard : Board :=
  [[none, none, none], [none, some .O, none], [none, none, none]]

/-- A 6x6 board whose top row holds five consecutive `X` marks. -/
def demoFiveBoard : Board :=
  [some .X, some .X, some .X, some .X, some .X, none] ::
    List.replicate 5 (List.replicate 6 (none : Cell))

/-- A fresh 3x3 game state as `EasyGame.__init__` builds it. -/
def freshEasy : GameState :=
  { size := 3
    board := List.replicate 3 (List.replicate 3 none)
    current_player := .X
    game_over := false
    winner := none
    winning_cells := [] }

/-- The state `make_move(-1, -1)` on a fresh 3x3 game actually produces:
Python's negative indexing aliases the move onto cell `(2, 2)`. -/
def demoAliasedState : GameState :=
  { size := 3
    board := [[none, none, none], [none, none, none], [none, none, some .X]]
    current_player := .O
    game_over := false
    winner := none
    winning_cells := [] }

/-- The 3x3 state one `X` move before a top-row win. -/
def demoPreWinState : GameState :=
  { size := 3
    board := [[some .X, some .X, none], [some .O, some .O, none], [none, none, none]]
    current_player := .X
    game_over := false
    winner := none
    winning_cells := [] }

/-- The won 3x3 state reached from `demoPreWinState` by playing `(0, 2)`. -/
def demoWonState : GameState :=
  { size := 3
    board := [[some .X, some .X, some .X], [some .O, some .O, none], [none, none, none]]
    current_player := .X
    game_over := true
    winner := some .X
    winning_cells := [(0, 0), (0, 1), (0, 2)] }

/-- A 3x3 board where the mover `O` has no immediate win but must block
the `X` win at `(0, 2)`. -/
def demoBlockBoard : Board :=
  [[some .X, some .X, none], [some .O, none, none], [none, none, none]]

theorem qadd_eq (a b : ℚ) : qadd a b = a + b :=
  (Rat.add_def' a b).symm

theorem qmul_eq (a b : ℚ) : qmul a b = a * b := by
  rw [qmul, Rat.mul_def, Rat.normalize_eq_mkRat]

theorem qsub_eq (a b : ℚ) : qsub a b = a - b := by
  rw [qsub, qadd_eq, sub_eq_add_neg]

theorem qdivN_eq (a : ℚ) (n : Nat) : qdivN a n = a / n := by
  rw [qdivN, Rat.mkRat_eq_div]
  push_cast
  rw [div_mul_eq_div_div, Rat.num_div_den]

theorem half_eq : mkRat 1 2 = (1/2 : ℚ) := by
  rw [Rat.mkRat_eq_div]; norm_num

theorem tenth_eq : mkRat 1 10 = (1/10 : ℚ) := by
  rw [Rat.mkRat_eq_div]; norm_num

/-- C10: on every manager state, `GameManager.reset` raises `ValueError`
(from validating `Move(-1, -1)`) while the underlying game has already
been reset to an empty board, mover `X` (mark A), no winner, in-progress
status; `last_move` keeps its old value because the assignment never
completes. -/
theorem manager_reset_raises_value_error (m : Manager) :
    (managerReset m).2 = .error .valueError
    ∧ (managerReset m).1.game.board
        = List.replicate m.game.size (List.replicate m.game.size none)
    ∧ (managerReset m).1.game.current_player = .X
    ∧ (managerReset m).1.game.winner = none
    ∧ (managerReset m).1.game.game_over = false
    ∧ (managerReset m).1.last_move = m.last_move := by
  have h : moveMk (-1) (-1) = .error .valueError := by
    unfold moveMk; norm_num
  unfold managerReset
  rw [h]
  exact ⟨rfl, rfl, rfl, rfl, rfl, rfl⟩

/-- C9: once a move has driven the state machine into a terminal state
(`game_over` true), every further `make_move` call returns failure with
the whole state unchanged, and `reset` rebuilds a fresh in-progress state
with an empty board and mover `X` (mark A). -/
theorem terminal_states_absorbing
    (cw : Board → Int → Int → Except PyErr (Option (List (Int × Int))))
    (g g1 : GameState) (row col : Int) (ok : Bool)
    (hmv : makeMove cw g row col = .ok (g1, ok))
    (hover : g1.game_over = true) :
    (∀ r c : Int, makeMove cw g1 r c = .ok (g1, false))
    ∧ (resetGame g1).board = List.replicate g1.size (List.replicate g1.size none)
    ∧ (resetGame g1).current_player = .X
    ∧ (resetGame g1).game_over = false
    ∧ (resetGame g1).winner = none
    ∧ (resetGame g1).winning_cells = [] := by
  refine ⟨fun r c => ?_, rfl, rfl, rfl, rfl, rfl⟩
  unfold makeMove
  rw [hover]
  rfl

/-- Witness for C9 at a concrete game: playing `(0, 2)` from
`demoPreWinState` wins for `X`, after which a further move at the free
cell `(1, 2)` is rejected without changing the state, and `reset` gives
the fresh state back. -/
theorem terminal_states_absorbing_witness :
    makeMove (easyCheckWin 3) demoWonState 1 2 = .ok (demoWonState, false)
    ∧ (resetGame demoWonState).board
        = List.replicate demoWonState.size (List.replicate demoWonState.size none)
    ∧ (resetGame demoWonState).current_player = .X := by
  have h := terminal_states_absorbing (easyCheckWin 3) demoPreWinState demoWonState 0 2 true
    (by rfl) (by rfl)
  exact ⟨h.1 1 2, h.2.1, h.2.2.1⟩

/-- C3: the claim fails on the code.  On `demoFinishedBoard` the side not
to move (`X`, opponent of the `player` argument `O`) has a completed
winning line, yet `_negamax` does not return `-1`: its terminal test calls
`_check_win` at the off-board cell `(-1, -1)`, which cannot see the top
row, and the heuristic evaluation then returns `+1`. -/
theorem negamax_misses_finished_win :
    hasWinningLine demoFinishedBoard .X 3 = true
    ∧ negamax 3 0 demoFinishedBoard .negInf .posInf .O = .ok (.val 1)
    ∧ Score.val 1 ≠ Score.val (-1) := by
  refine ⟨by decide, by rfl, by decide⟩

/-- C5 counterexample: `make_move(-1, -1)` on a fresh 3x3 game is out of
bounds by the spec's reading, yet it succeeds and mutates the board
(Python's negative indexing writes the mark at `(2, 2)`). -/
theorem make_move_negative_index_succeeds :
    makeMove (easyCheckWin 3) freshEasy (-1) (-1) = .ok (demoAliasedState, true)
    ∧ demoAliasedState ≠ freshEasy := by
  refine ⟨by rfl, by decide⟩

/-- C5 amended: `make_move` rejects with no state change when the game is
over or when the Python-resolved target cell is occupied; coordinates are
not range-checked, so indices outside `[-N, N)` raise `IndexError` instead
of returning failure, and negative in-window indices alias cells from the
end (see `make_move_negative_index_succeeds`). -/
theorem make_move_rejections
    (cw : Board → Int → Int → Except PyErr (Option (List (Int × Int))))
    (g : GameState) (row col : Int) :
    (g.game_over = true → makeMove cw g row col = .ok (g, false))
    ∧ (g.game_over = false → ∀ m : Player,
        pyGetCell g.board row col = .ok (some m) → makeMove cw g row col = .ok (g, false))
    ∧ (g.game_over = false → ∀ e : PyErr,
        pyGetCell g.board row col = .error e → makeMove cw g row col = .error e) := by
  refine ⟨fun h => ?_, fun h m hm => ?_, fun h e he => ?_⟩
  · unfold makeMove; rw [h]; rfl
  · unfold makeMove; rw [h, hm]; simp
  · unfold makeMove; rw [h, he]; rfl

/-- Witness for C5 amended: on the aliased state the Python-resolved cell
`(2, 2)` is occupied and the move is rejected, while the coordinates
`(5, 0)` raise `IndexError` on the fresh state. -/
theorem make_move_rejections_witness :
    makeMove (easyCheckWin 3) demoAliasedState 2 2 = .ok (demoAliasedState, false)
    ∧ makeMove (easyCheckWin 3) freshEasy 5 0 = .error .indexError := by
  refine ⟨(make_move_rejections (easyCheckWin 3) demoAliasedState 2 2).2.1 (by rfl) .X (by rfl),
    (make_move_rejections (easyCheckWin 3) freshEasy 5 0).2.2 (by rfl) .indexError (by rfl)⟩

/-- C4: the claim fails on the code.  `demoCenterBoard` is a non-full 3x3
board, yet `get_move` at difficulty 7 (with no search timeout firing and
any oracle values, which this run never consults) raises `TypeError`: the
iterative-deepening search reaches a position that admits an immediate
win, where `_get_ordered_moves` returns a bare `MoveEvaluation` object and
`_negamax` tuple-unpacks it. -/
theorem get_move_raises_type_error_on_non_full_board :
    emptyCells demoCenterBoard ≠ []
    ∧ getMove 7 demoCenterBoard .X false 0 (fun _ => false) = .error .typeError := by
  exact ⟨by decide, by rfl⟩

/-- C2 counterexample: on a 6x6 board with five `X` in a row, the move
engine's win check (with its `K = 5` requirement for size 6) reports a
win at `(0, 4)`, while the 6x6 game state machine's `check_win` (which
demands six in a row) reports none — the two checks disagree. -/
theorem win_requirement_mismatch_6x6 :
    winReq 6 = 5
    ∧ checkWin demoFiveBoard .X 0 4 (winReq 6) = true
    ∧ insaneCheckWin 6 demoFiveBoard 0 4 = .ok none := by
  exact ⟨by rfl, by rfl, by rfl⟩

theorem runCells_length (b : Board) (m : Player) (n : Nat) (hn : n = b.length) :
    ∀ (fuel : Nat) (r c dr dc : Int),
      (runCells b n (some m) fuel r c dr dc).length = runCount b m fuel r c dr dc := by
  subst hn
  intro fuel
  induction fuel with
  | zero => intro r c dr dc; rfl
  | succ k ih =>
    intro r c dr dc
    unfold runCells runCount
    by_cases h : (inB b.length r c && (getCellI b r c == some m)) = true
    · rw [if_pos h, if_pos h, List.length_cons, ih]
    · rw [if_neg h, if_neg h]; rfl

theorem pyGetCell_nat (b : Board) (row col : Nat) (hr : row < b.length)
    (hc : col < (b.getD row []).length) :
    pyGetCell b row col = .ok (getCell b row col) := by
  unfold pyGetCell pyIdx getCell
  rw [if_pos ⟨Int.natCast_nonneg row, by exact_mod_cast hr⟩]
  simp only [Int.toNat_natCast]
  rw [if_pos ⟨Int.natCast_nonneg col, by exact_mod_cast hc⟩]

/-- C2 amended: the win-length table of the move engine is `K = N` for
sizes 3-5 and `K = 5` for size 6, but the 6x6 game state machine is not
consistent with it: its `check_win` is exactly the engine's line check
with a hard-coded requirement of `6`, so the two disagree about 5-in-a-row
positions (see `win_requirement_mismatch_6x6`). -/
theorem win_requirement_values_and_insane_uses_six
    (b : Board) (row col : Nat) (m : Player)
    (hlen : b.length = 6) (hrow : (b.getD row []).length = 6)
    (hr : row < 6) (hc : col < 6)
    (hcell : getCell b row col = some m) :
    (winReq 3 = 3 ∧ winReq 4 = 4 ∧ winReq 5 = 5 ∧ winReq 6 = 5)
    ∧ ∃ res : Option (List (Int × Int)),
        insaneCheckWin 6 b row col = .ok res
        ∧ (res.isSome ↔ checkWin b m row col 6 = true) := by
  refine ⟨⟨rfl, rfl, rfl, rfl⟩, ?_⟩
  have hget : pyGetCell b row col = .ok (some m) := by
    rw [pyGetCell_nat b row col (by omega) (by omega), hcell]
  refine ⟨directions.findSome? (fun d =>
    let fwd := runCells b 6 (some m) 6 ((row : Int) + d.1) ((col : Int) + d.2) d.1 d.2
    let bwd := runCells b 6 (some m) 6 ((row : Int) - d.1) ((col : Int) - d.2) (-d.1) (-d.2)
    if 6 ≤ 1 + fwd.length + bwd.length then
      some (((row : Int), (col : Int)) :: (fwd ++ bwd)) else none), ?_, ?_⟩
  · unfold insaneCheckWin
    rw [hget]
    rfl
  · rw [List.findSome?_isSome_iff]
    unfold checkWin
    rw [List.any_eq_true]
    constructor
    · rintro ⟨d, hd, hsome⟩
      refine ⟨d, hd, ?_⟩
      simp only at hsome
      split at hsome
      · rename_i hcount
        rw [runCells_length b m 6 hlen.symm, runCells_length b m 6 hlen.symm] at hcount
        simp only [decide_eq_true_eq, hlen]
        omega
      · simp at hsome
    · rintro ⟨d, hd, hcount⟩
      refine ⟨d, hd, ?_⟩
      simp only [decide_eq_true_eq] at hcount
      rw [hlen] at hcount
      simp only
      rw [if_pos]
      · rfl
      · rw [runCells_length b m 6 hlen.symm, runCells_length b m 6 hlen.symm]
        omega

/-- Witness for C2 amended at the concrete five-in-a-row board. -/
theorem win_requirement_values_and_insane_uses_six_witness :
    (winReq 3 = 3 ∧ winReq 4 = 4 ∧ winReq 5 = 5 ∧ winReq 6 = 5)
    ∧ ∃ res : Option (List (Int × Int)),
        insaneCheckWin 6 demoFiveBoard 0 4 = .ok res
        ∧ (res.isSome ↔ checkWin demoFiveBoard .X 0 4 6 = true) :=
  win_requirement_values_and_insane_uses_six demoFiveBoard 0 4 .X (by rfl) (by rfl)
    (by decide) (by decide) (by rfl)

theorem mem_coords {n : Nat} {rc : Nat × Nat} : rc ∈ coords n ↔ rc.1 < n ∧ rc.2 < n := by
  obtain ⟨r, c⟩ := rc
  simp only [coords, List.mem_flatMap, List.mem_map, List.mem_range, Prod.mk.injEq]
  constructor
  · rintro ⟨a, ha, bb, hb, h1, h2⟩
    subst h1; subst h2; exact ⟨ha, hb⟩
  · rintro ⟨h1, h2⟩
    exact ⟨r, h1, c, h2, rfl, rfl⟩

theorem getWinningMove_isSome_iff (b : Board) (p : Player) (required : Nat) :
    (getWinningMove b p required).isSome = true
      ↔ ∃ rc : Nat × Nat, rc.1 < b.length ∧ rc.2 < b.length
          ∧ getCell b rc.1 rc.2 = none
          ∧ checkWin (setCell b rc.1 rc.2 (some p)) p rc.1 rc.2 required = true := by
  unfold getWinningMove
  rw [List.find?_isSome]
  constructor
  · rintro ⟨rc, hmem, hpred⟩
    rw [Bool.and_eq_true, beq_iff_eq] at hpred
    exact ⟨rc, (mem_coords.1 hmem).1, (mem_coords.1 hmem).2, hpred.1, hpred.2⟩
  · rintro ⟨rc, h1, h2, h3, h4⟩
    refine ⟨rc, mem_coords.2 ⟨h1, h2⟩, ?_⟩
    rw [Bool.and_eq_true, beq_iff_eq]
    exact ⟨h3, h4⟩

theorem getWinningMove_some_spec (b : Board) (p : Player) (required : Nat)
    (rc : Nat × Nat) (h : getWinningMove b p required = some rc) :
    getCell b rc.1 rc.2 = none
      ∧ checkWin (setCell b rc.1 rc.2 (some p)) p rc.1 rc.2 required = true := by
  have := List.find?_some h
  rw [Bool.and_eq_true, beq_iff_eq] at this
  exact this

/-- C1: whenever some empty cell completes a winning line for the mover,
`get_move` returns such a cell at every difficulty level before any tier
strategy runs (for any random or timing oracle); and when no such cell
exists for the mover but one exists for the opponent, `get_move` returns a
cell that completes the opponent's line (the block). -/
theorem immediate_win_block_precedence
    (level : Nat) (b : Board) (p : Player) (coin : Bool) (ridx : Nat) (tmo : Nat → Bool)
    (hlvl1 : 1 ≤ level) (hlvl10 : level ≤ 10)
    (hne : b ≠ []) (hsq : b.length = (b.headD []).length) :
    ((∃ rc : Nat × Nat, rc.1 < b.length ∧ rc.2 < b.length
        ∧ getCell b rc.1 rc.2 = none
        ∧ checkWin (setCell b rc.1 rc.2 (some p)) p rc.1 rc.2 (winReq b.length) = true) →
      ∃ rc : Nat × Nat, getMove level b p coin ridx tmo = .ok (.tup rc)
        ∧ getCell b rc.1 rc.2 = none
        ∧ checkWin (setCell b rc.1 rc.2 (some p)) p rc.1 rc.2 (winReq b.length) = true)
    ∧ ((¬ ∃ rc : Nat × Nat, rc.1 < b.length ∧ rc.2 < b.length
        ∧ getCell b rc.1 rc.2 = none
        ∧ checkWin (setCell b rc.1 rc.2 (some p)) p rc.1 rc.2 (winReq b.length) = true) →
      (∃ rc : Nat × Nat, rc.1 < b.length ∧ rc.2 < b.length
        ∧ getCell b rc.1 rc.2 = none
        ∧ checkWin (setCell b rc.1 rc.2 (some p.other)) p.other rc.1 rc.2
            (winReq b.length) = true) →
      ∃ rc : Nat × Nat, getMove level b p coin ridx tmo = .ok (.tup rc)
        ∧ getCell b rc.1 rc.2 = none
        ∧ checkWin (setCell b rc.1 rc.2 (some p.other)) p.other rc.1 rc.2
            (winReq b.length) = true) := by
  have hvalid : ¬ (b.length = 0 ∨ b.length ≠ (b.headD []).length) := by
    push_neg
    exact ⟨fun h => hne (List.length_eq_zero.1 h), hsq⟩
  constructor
  · intro hex
    have hsome : (getWinningMove b p (winReq b.length)).isSome = true :=
      (getWinningMove_isSome_iff b p (winReq b.length)).2 hex
    obtain ⟨rc, hrc⟩ := Option.isSome_iff_exists.1 hsome
    refine ⟨rc, ?_, getWinningMove_some_spec b p _ rc hrc⟩
    unfold getMove
    rw [if_neg hvalid]
    simp only [hrc]
  · intro hno hex
    have hnone : getWinningMove b p (winReq b.length) = none := by
      cases h : getWinningMove b p (winReq b.length) with
      | none => rfl
      | some rc =>
        exact absurd ((getWinningMove_isSome_iff b p (winReq b.length)).1
          (by rw [h]; rfl)) hno
    have hsome : (getWinningMove b p.other (winReq b.length)).isSome = true :=
      (getWinningMove_isSome_iff b p.other (winReq b.length)).2 hex
    obtain ⟨rc, hrc⟩ := Option.isSome_iff_exists.1 hsome
    refine ⟨rc, ?_, getWinningMove_some_spec b p.other _ rc hrc⟩
    unfold getMove
    rw [if_neg hvalid]
    simp only [hnone, hrc]

/-- Witness for C1: on `demoWinBoard` the mover `X` completes the top row
at `(0, 2)` and `get_move` at level 5 returns a winning cell; on the same
board with only one `O` mark removed, the mover `O` has no winning cell
and `get_move` returns a cell that blocks the `X` win. -/
theorem immediate_win_block_precedence_witness :
    (∃ rc : Nat × Nat, getMove 5 demoWinBoard .X false 0 (fun _ => false) = .ok (.tup rc)
      ∧ getCell demoWinBoard rc.1 rc.2 = none
      ∧ checkWin (setCell demoWinBoard rc.1 rc.2 (some .X)) .X rc.1 rc.2
          (winReq demoWinBoard.length) = true)
    ∧ (∃ rc : Nat × Nat,
        getMove 5 demoBlockBoard .O false 0 (fun _ => false) = .ok (.tup rc)
      ∧ getCell demoBlockBoard rc.1 rc.2 = none
      ∧ checkWin (setCell demoBlockBoard rc.1 rc.2 (some Player.O.other)) Player.O.other
          rc.1 rc.2 (winReq demoBlockBoard.length) = true) := by
  constructor
  · exact (immediate_win_block_precedence 5 demoWinBoard .X false 0 (fun _ => false)
      (by decide) (by decide) (by decide) (by rfl)).1
      ⟨(0, 2), by decide, by decide, by rfl, by rfl⟩
  · exact (immediate_win_block_precedence 5 demoBlockBoard .O false 0 (fun _ => false)
      (by decide) (by decide) (by decide) (by rfl)).2
      (fun hex => by
        have := (getWinningMove_isSome_iff demoBlockBoard .O
          (winReq demoBlockBoard.length)).2 hex
        rw [show getWinningMove demoBlockBoard .O (winReq demoBlockBoard.length) = none
          from by rfl] at this
        exact absurd this (by decide))
      ⟨(0, 2), by decide, by decide, by rfl, by rfl⟩

theorem foldl_tenth {α : Type} (p : α → Bool) (f g : α → Nat) (l : List α) (init : ℚ) :
    l.foldl (fun s x => if p x then
      qsub (qadd s (qmul (mkRat 1 10) (f x : ℚ))) (qmul (mkRat 1 10) (g x : ℚ)) else s) init
    = init + (1/10 : ℚ) * (((l.filter p).map (fun x => (f x : ℤ) - (g x : ℤ))).sum : ℚ) := by
  induction l generalizing init with
  | nil => simp
  | cons a t ih =>
    by_cases h : p a = true
    · rw [List.foldl_cons, if_pos h, ih, List.filter_cons_of_pos h, List.map_cons,
        List.sum_cons]
      rw [qsub_eq, qadd_eq, qmul_eq, qmul_eq, tenth_eq]
      push_cast
      ring
    · rw [List.foldl_cons, if_neg h, ih, List.filter_cons_of_neg h]

/-- C8 amended: `_advanced_evaluate` returns `+1` when the mark has an
empty cell completing a winning line (an immediate winning move, not an
already-completed line) and `-1` when the opponent has one; otherwise it
returns one tenth of the sum, over all empty cells, of the difference
between the potential-line count after placing the mark at the cell and
the count after placing the opponent there — not one tenth of the
difference of the two counts on the unchanged board. -/
theorem advanced_evaluate_closed_form (b : Board) (p : Player) (required : Nat) :
    advancedEvaluate b p required = advancedEvaluateAmended b p required := by
  unfold advancedEvaluate advancedEvaluateAmended
  by_cases h1 : (getWinningMove b p required).isSome = true
  · rw [if_pos h1, if_pos h1]
  · rw [if_neg h1, if_neg h1]
    by_cases h2 : (getWinningMove b p.other required).isSome = true
    · rw [if_pos h2, if_pos h2]
    · rw [if_neg h2, if_neg h2]
      rw [foldl_tenth (fun rc => getCell b rc.1 rc.2 == none)
        (fun rc => countPotentialLines (setCell b rc.1 rc.2 (some p)) p required)
        (fun rc => countPotentialLines (setCell b rc.1 rc.2 (some p.other)) p.other required)
        (coords b.length) 0]
      rw [zero_add]
      rfl

/-- C8 counterexample: on `demoWinBoard` the mark `X` has no completed
winning line (and neither does `O`), so the claimed evaluator value is
`0.1 x (5 - 5) = 0`, but `_advanced_evaluate` returns `1` because `X` can
win in one move. -/
theorem advanced_evaluate_mismatch :
    advancedEvaluate demoWinBoard .X 3 = 1
    ∧ evaluateSpec demoWinBoard .X 3 = 0
    ∧ (1 : ℚ) ≠ 0 := by
  refine ⟨by rfl, ?_, by norm_num⟩
  have h1 : hasWinningLine demoWinBoard .X 3 = false := by rfl
  have h2 : hasWinningLine demoWinBoard Player.X.other 3 = false := by rfl
  have h3 : countPotentialLines demoWinBoard .X 3 = 5 := by rfl
  have h4 : countPotentialLines demoWinBoard Player.X.other 3 = 5 := by rfl
  unfold evaluateSpec
  rw [h1, h2, h3, h4]
  norm_num

theorem orderScore_eq_specScore (b : Board) (required : Nat) (rc : Nat × Nat) :
    orderScore b required rc.1 rc.2 = specScore b required rc := by
  simp only [orderScore, specScore]
  rw [qdivN_eq, qsub_eq, qadd_eq, qadd_eq, qadd_eq, half_eq]
  push_cast
  ring

theorem coords_pairwise_rm (n : Nat) :
    (coords n).Pairwise (fun a b => rmIdx n a < rmIdx n b) := by
  unfold coords
  rw [List.pairwise_flatMap]
  constructor
  · intro r _
    refine List.Pairwise.map _ ?_ (List.pairwise_lt_range n)
    intro c1 c2 h
    simpa [rmIdx] using h
  · refine List.Pairwise.imp_of_mem ?_ (List.pairwise_lt_range n)
    rintro r1 r2 _ _ hlt x hx y hy
    obtain ⟨c1, hc1, rfl⟩ := List.mem_map.1 hx
    obtain ⟨c2, hc2, rfl⟩ := List.mem_map.1 hy
    rw [List.mem_range] at hc1 hc2
    simp only [rmIdx]
    calc r1 * n + c1 < r1 * n + n := by omega
      _ = (r1 + 1) * n := by ring
      _ ≤ r2 * n := Nat.mul_le_mul_right n hlt
      _ ≤ r2 * n + c2 := Nat.le_add_right _ _

theorem pair_sublist_of_get (l : List α) (i j : Nat) (hi : i < l.length)
    (hj : j < l.length) (hij : i < j) :
    List.Sublist [l.get ⟨i, hi⟩, l.get ⟨j, hj⟩] l := by
  induction l generalizing i j with
  | nil => exact absurd hi (by simp)
  | cons a t ih =>
    cases i with
    | zero =>
      cases j with
      | zero => omega
      | succ m =>
        refine List.Sublist.cons₂ a ?_
        rw [List.singleton_sublist]
        exact List.get_mem t m (by simpa using hj)
    | succ k =>
      cases j with
      | zero => omega
      | succ m =>
        exact List.Sublist.cons a
          (ih k m (by simpa using hi) (by simpa using hj) (by omega))

theorem get_indices_of_pair_sublist {x y : α} {l : List α} (h : List.Sublist [x, y] l) :
    ∃ (i j : Nat) (hi : i < l.length) (hj : j < l.length),
      i < j ∧ l.get ⟨i, hi⟩ = x ∧ l.get ⟨j, hj⟩ = y := by
  induction l with
  | nil => exact absurd h (by simp)
  | cons a t ih =>
    cases h with
    | cons _ h1 =>
      obtain ⟨i, j, hi, hj, hij, hx, hy⟩ := ih h1
      exact ⟨i + 1, j + 1, by simpa using hi, by simpa using hj, by omega, hx, hy⟩
    | cons₂ _ h2 =>
      rw [List.singleton_sublist, List.mem_iff_get] at h2
      obtain ⟨⟨j, hj⟩, hy⟩ := h2
      exact ⟨0, j + 1, by simp, by simpa using hj, by omega, rfl, hy⟩

theorem insertionSort_ties (n : Nat) (S : List ((Nat × Nat) × ℚ))
    (hpw : S.Pairwise (fun x y => rmIdx n x.1 < rmIdx n y.1)) :
    (S.insertionSort (fun x y => y.2 ≤ x.2)).Pairwise
      (fun x y => x.2 = y.2 → rmIdx n x.1 < rmIdx n y.1) := by
  have hNodupS : S.Nodup :=
    hpw.imp (fun {x y} h => fun hxy => by rw [hxy] at h; omega)
  have hperm := List.perm_insertionSort (fun (x y : (Nat × Nat) × ℚ) => y.2 ≤ x.2) S
  have hNodupL : (S.insertionSort (fun x y => y.2 ≤ x.2)).Nodup :=
    hperm.nodup_iff.2 hNodupS
  rw [List.pairwise_iff_getElem]
  intro i j hi hj hij heq
  by_contra hnot
  have hxy : (S.insertionSort (fun x y => y.2 ≤ x.2))[i]
      ≠ (S.insertionSort (fun x y => y.2 ≤ x.2))[j] := by
    intro hcon
    exact absurd ((hNodupL.getElem_inj_iff).1 hcon) (by omega)
  have hxS : (S.insertionSort (fun x y => y.2 ≤ x.2))[i] ∈ S :=
    hperm.mem_iff.1 (List.getElem_mem hi)
  have hyS : (S.insertionSort (fun x y => y.2 ≤ x.2))[j] ∈ S :=
    hperm.mem_iff.1 (List.getElem_mem hj)
  obtain ⟨⟨ix, hix⟩, hgx⟩ := List.mem_iff_get.1 hxS
  obtain ⟨⟨iy, hiy⟩, hgy⟩ := List.mem_iff_get.1 hyS
  have hSpw := List.pairwise_iff_getElem.1 hpw
  rcases Nat.lt_trichotomy ix iy with hlt | hE | hgt
  · apply hnot
    have := hSpw ix iy hix hiy hlt
    rw [List.get_eq_getElem] at hgx hgy
    rw [hgx, hgy] at this
    exact this
  · apply hxy
    rw [← hgx, ← hgy]
    exact congrArg S.get (Fin.ext hE)
  · have hrm := hSpw iy ix hiy hix hgt
    have hsubS : List.Sublist
        [(S.insertionSort (fun x y => y.2 ≤ x.2))[j],
          (S.insertionSort (fun x y => y.2 ≤ x.2))[i]] S := by
      have h2 := pair_sublist_of_get S iy ix hiy hix hgt
      rw [hgy, hgx] at h2
      exact h2
    have hsubL : List.Sublist
        [(S.insertionSort (fun x y => y.2 ≤ x.2))[j],
          (S.insertionSort (fun x y => y.2 ≤ x.2))[i]]
        (S.insertionSort (fun x y => y.2 ≤ x.2)) :=
      List.pair_sublist_insertionSort heq.le hsubS
    obtain ⟨a, b2, ha, hb2, hab2, hga, hgb⟩ := get_indices_of_pair_sublist hsubL
    rw [List.get_eq_getElem] at hga hgb
    have haj : a = j := (hNodupL.getElem_inj_iff).1 hga
    have hbi : b2 = i := (hNodupL.getElem_inj_iff).1 hgb
    omega

/-- C7: on a board where neither mark has an immediate winning cell, the
ordered-move list consists of exactly the empty cells, each scored
`center_score + potential_score` as specified, sorted by score in
descending order with ties broken by row-major order, and it is non-empty
unless the board is full. -/
theorem ordered_moves_spec (b : Board) (required : Nat)
    (hx : ¬ ∃ rc : Nat × Nat, rc.1 < b.length ∧ rc.2 < b.length
        ∧ getCell b rc.1 rc.2 = none
        ∧ checkWin (setCell b rc.1 rc.2 (some .X)) .X rc.1 rc.2 required = true)
    (ho : ¬ ∃ rc : Nat × Nat, rc.1 < b.length ∧ rc.2 < b.length
        ∧ getCell b rc.1 rc.2 = none
        ∧ checkWin (setCell b rc.1 rc.2 (some .O)) .O rc.1 rc.2 required = true) :
    ∃ l : List ((Nat × Nat) × ℚ),
      getOrderedMoves b required = l.map (fun e => MoveItem.tup e.1)
      ∧ l.Perm ((emptyCells b).map (fun rc => (rc, specScore b required rc)))
      ∧ l.Pairwise (fun x y => y.2 ≤ x.2)
      ∧ l.Pairwise (fun x y => x.2 = y.2 → rmIdx b.length x.1 < rmIdx b.length y.1)
      ∧ (emptyCells b ≠ [] → getOrderedMoves b required ≠ []) := by
  have hxn : getWinningMove b .X required = none := by
    cases h : getWinningMove b .X required with
    | none => rfl
    | some rc =>
      exact absurd ((getWinningMove_isSome_iff b .X required).1 (by rw [h]; rfl)) hx
  have hon : getWinningMove b .O required = none := by
    cases h : getWinningMove b .O required with
    | none => rfl
    | some rc =>
      exact absurd ((getWinningMove_isSome_iff b .O required).1 (by rw [h]; rfl)) ho
  have hEq : getOrderedMoves b required
      = (((emptyCells b).map (fun rc => (rc, orderScore b required rc.1 rc.2))).insertionSort
          (fun x y => y.2 ≤ x.2)).map (fun e => MoveItem.tup e.1) := by
    unfold getOrderedMoves
    rw [hxn, hon]
  have hmapEq : (emptyCells b).map (fun rc => (rc, orderScore b required rc.1 rc.2))
      = (emptyCells b).map (fun rc => (rc, specScore b required rc)) :=
    List.map_congr_left (fun a _ => by rw [orderScore_eq_specScore])
  have hSpw : ((emptyCells b).map
        (fun rc => (rc, orderScore b required rc.1 rc.2))).Pairwise
      (fun x y => rmIdx b.length x.1 < rmIdx b.length y.1) := by
    refine List.Pairwise.map _ ?_ ((coords_pairwise_rm b.length).filter _)
    intro a c h
    exact h
  refine ⟨_, hEq, ?_, ?_, ?_, ?_⟩
  · rw [← hmapEq]
    exact List.perm_insertionSort _ _
  · haveI h1 : IsTotal ((Nat × Nat) × ℚ) (fun x y => y.2 ≤ x.2) :=
      ⟨fun a c => le_total c.2 a.2⟩
    haveI h2 : IsTrans ((Nat × Nat) × ℚ) (fun x y => y.2 ≤ x.2) :=
      ⟨fun a c d ha hb => le_trans hb ha⟩
    exact List.sorted_insertionSort _ _
  · exact insertionSort_ties b.length _ hSpw
  · intro hne hcon
    rw [hEq, List.map_eq_nil_iff] at hcon
    have h0 := congrArg List.length hcon
    rw [List.length_insertionSort, List.length_map, List.length_nil] at h0
    exact hne (List.length_eq_zero.1 h0)

/-- Witness for C7 on the center-only board, which admits no immediate
winning cell for either mark. -/
theorem ordered_moves_spec_witness :
    ∃ l : List ((Nat × Nat) × ℚ),
      getOrderedMoves demoCenterBoard 3 = l.map (fun e => MoveItem.tup e.1)
      ∧ l.Perm ((emptyCells demoCenterBoard).map
          (fun rc => (rc, specScore demoCenterBoard 3 rc)))
      ∧ l.Pairwise (fun x y => y.2 ≤ x.2)
      ∧ l.Pairwise (fun x y => x.2 = y.2 →
          rmIdx demoCenterBoard.length x.1 < rmIdx demoCenterBoard.length y.1)
      ∧ (emptyCells demoCenterBoard ≠ [] → getOrderedMoves demoCenterBoard 3 ≠ []) := by
  refine ordered_moves_spec demoCenterBoard 3 ?_ ?_
  · intro hex
    have := (getWinningMove_isSome_iff demoCenterBoard .X 3).2 hex
    rw [show getWinningMove demoCenterBoard .X 3 = none from by rfl] at this
    exact absurd this (by decide)
  · intro hex
    have := (getWinningMove_isSome_iff demoCenterBoard .O 3).2 hex
    rw [show getWinningMove demoCenterBoard .O 3 = none from by rfl] at this
    exact absurd this (by decide)

theorem runCount_match (b : Board) (p : Player) :
    ∀ (fuel : Nat) (r c dr dc : Int) (k : Nat), k < runCount b p fuel r c dr dc →
      matchAt b p (r + k * dr) (c + k * dc) := by
  intro fuel
  induction fuel with
  | zero =>
    intro r c dr dc k h
    simp [runCount] at h
  | succ fm ih =>
    intro r c dr dc k h
    unfold runCount at h
    by_cases hg : (inB b.length r c && (getCellI b r c == some p)) = true
    · rw [if_pos hg] at h
      rw [Bool.and_eq_true, beq_iff_eq] at hg
      cases k with
      | zero =>
        refine ⟨?_, ?_⟩
        · simpa using hg.1
        · simpa using hg.2
      | succ k2 =>
        have hrec := ih (r + dr) (c + dc) dr dc k2 (by omega)
        have e1 : r + dr + (k2 : Int) * dr = r + ((k2 + 1 : Nat) : Int) * dr := by
          push_cast; ring
        have e2 : c + dc + (k2 : Int) * dc = c + ((k2 + 1 : Nat) : Int) * dc := by
          push_cast; ring
        rw [e1, e2] at hrec
        exact hrec
    · rw [if_neg hg] at h
      omega

theorem runCount_ge (b : Board) (p : Player) :
    ∀ (f fuel : Nat) (r c dr dc : Int), f ≤ fuel →
      (∀ k : Nat, k < f → matchAt b p (r + k * dr) (c + k * dc)) →
      f ≤ runCount b p fuel r c dr dc := by
  intro f
  induction f with
  | zero =>
    intro fuel r c dr dc hle hmatch
    omega
  | succ g ih =>
    intro fuel r c dr dc hle hmatch
    cases fuel with
    | zero => omega
    | succ fm =>
      have h0 := hmatch 0 (by omega)
      obtain ⟨h0a, h0b⟩ := h0
      simp only [Nat.cast_zero, zero_mul, add_zero] at h0a h0b
      unfold runCount
      rw [if_pos (by rw [Bool.and_eq_true, beq_iff_eq]; exact ⟨h0a, h0b⟩)]
      have hrec := ih fm (r + dr) (c + dc) dr dc (by omega) (fun k hk => by
        have hm := hmatch (k + 1) (by omega)
        have e1 : r + dr + (k : Int) * dr = r + ((k + 1 : Nat) : Int) * dr := by
          push_cast; ring
        have e2 : c + dc + (k : Int) * dc = c + ((k + 1 : Nat) : Int) * dc := by
          push_cast; ring
        rw [e1, e2]
        exact hm)
      omega

theorem runThrough_le_fuel (b : Board) (m : Player) (row col : Nat) (d : Int × Int)
    (f bk : Nat) (hr : row < b.length) (hc : col < b.length) (hd : d ∈ directions)
    (hrun : RunThrough b m row col d f bk) :
    f ≤ b.length ∧ bk ≤ b.length := by
  obtain ⟨hfwd, hbwd⟩ := hrun
  simp only [directions, List.mem_cons, List.not_mem_nil, or_false] at hd
  have hfb : f = 0 ∨ f ≥ 1 := by omega
  have hbb : bk = 0 ∨ bk ≥ 1 := by omega
  constructor
  · rcases hfb with h0 | h1
    · omega
    · have hm := (hfwd f h1 (le_refl f)).1
      rcases hd with rfl | rfl | rfl | rfl <;>
        (simp only [inB, Bool.and_eq_true, decide_eq_true_eq] at hm) <;> omega
  · rcases hbb with h0 | h1
    · omega
    · have hm := (hbwd bk h1 (le_refl bk)).1
      rcases hd with rfl | rfl | rfl | rfl <;>
        (simp only [inB, Bool.and_eq_true, decide_eq_true_eq] at hm) <;> omega

theorem count_iff_runThrough (b : Board) (m : Player) (row col : Nat) (required : Nat)
    (d : Int × Int) (hd : d ∈ directions) (hr : row < b.length) (hc : col < b.length) :
    (required ≤ 1 + runCount b m b.length ((row : Int) + d.1) ((col : Int) + d.2) d.1 d.2
        + runCount b m b.length ((row : Int) - d.1) ((col : Int) - d.2) (-d.1) (-d.2))
      ↔ ∃ f bk : Nat, required ≤ 1 + f + bk ∧ RunThrough b m row col d f bk := by
  constructor
  · intro h
    refine ⟨runCount b m b.length ((row : Int) + d.1) ((col : Int) + d.2) d.1 d.2,
      runCount b m b.length ((row : Int) - d.1) ((col : Int) - d.2) (-d.1) (-d.2),
      h, fun i h1 h2 => ?_, fun j h1 h2 => ?_⟩
    · have hm := runCount_match b m b.length ((row : Int) + d.1) ((col : Int) + d.2)
        d.1 d.2 (i - 1) (by omega)
      have e1 : (row : Int) + d.1 + ((i - 1 : Nat) : Int) * d.1 = (row : Int) + i * d.1 := by
        rw [Nat.cast_sub h1, Nat.cast_one]; ring
      have e2 : (col : Int) + d.2 + ((i - 1 : Nat) : Int) * d.2 = (col : Int) + i * d.2 := by
        rw [Nat.cast_sub h1, Nat.cast_one]; ring
      rw [e1, e2] at hm
      exact hm
    · have hm := runCount_match b m b.length ((row : Int) - d.1) ((col : Int) - d.2)
        (-d.1) (-d.2) (j - 1) (by omega)
      have e1 : (row : Int) - d.1 + ((j - 1 : Nat) : Int) * (-d.1)
          = (row : Int) - j * d.1 := by
        rw [Nat.cast_sub h1, Nat.cast_one]; ring
      have e2 : (col : Int) - d.2 + ((j - 1 : Nat) : Int) * (-d.2)
          = (col : Int) - j * d.2 := by
        rw [Nat.cast_sub h1, Nat.cast_one]; ring
      rw [e1, e2] at hm
      exact hm
  · rintro ⟨f, bk, hreq, hrun⟩
    have hbound := runThrough_le_fuel b m row col d f bk hr hc hd hrun
    have h1 : f ≤ runCount b m b.length ((row : Int) + d.1) ((col : Int) + d.2) d.1 d.2 := by
      refine runCount_ge b m f b.length _ _ d.1 d.2 hbound.1 (fun k hk => ?_)
      have hm := hrun.1 (k + 1) (by omega) (by omega)
      have e1 : (row : Int) + d.1 + (k : Int) * d.1
          = (row : Int) + ((k + 1 : Nat) : Int) * d.1 := by push_cast; ring
      have e2 : (col : Int) + d.2 + (k : Int) * d.2
          = (col : Int) + ((k + 1 : Nat) : Int) * d.2 := by push_cast; ring
      rw [e1, e2]
      exact hm
    have h2 : bk ≤ runCount b m b.length ((row : Int) - d.1) ((col : Int) - d.2)
        (-d.1) (-d.2) := by
      refine runCount_ge b m bk b.length _ _ (-d.1) (-d.2) hbound.2 (fun k hk => ?_)
      have hm := hrun.2 (k + 1) (by omega) (by omega)
      have e1 : (row : Int) - d.1 + (k : Int) * (-d.1)
          = (row : Int) - ((k + 1 : Nat) : Int) * d.1 := by push_cast; ring
      have e2 : (col : Int) - d.2 + (k : Int) * (-d.2)
          = (col : Int) - ((k + 1 : Nat) : Int) * d.2 := by push_cast; ring
      rw [e1, e2]
      exact hm
    omega

/-- C6: for a valid board and a cell in range holding the mark,
`_check_win` reports a win exactly when one of the four directions has a
contiguous run of the mark through the cell, counted forward and backward
inclusive of the cell itself, of total length at least `required`;
off-board and mismatched cells terminate runs rather than raising. -/
theorem check_win_iff_run_through (b : Board) (m : Player) (row col : Nat)
    (required : Nat) (hr : row < b.length) (hc : col < b.length)
    (hcell : getCell b row col = some m) :
    checkWin b m row col required = true
      ↔ ∃ d ∈ directions, ∃ f bk : Nat,
          required ≤ 1 + f + bk ∧ RunThrough b m row col d f bk := by
  unfold checkWin
  rw [List.any_eq_true]
  constructor
  · rintro ⟨d, hd, hcount⟩
    rw [decide_eq_true_eq] at hcount
    exact ⟨d, hd, (count_iff_runThrough b m row col required d hd hr hc).1 hcount⟩
  · rintro ⟨d, hd, hex⟩
    refine ⟨d, hd, ?_⟩
    rw [decide_eq_true_eq]
    exact (count_iff_runThrough b m row col required d hd hr hc).2 hex

/-- Witness for C6: on the finished board the cell `(0, 1)` of the `X`
top row carries a run of length three (one forward, one backward). -/
theorem check_win_iff_run_through_witness :
    checkWin demoFinishedBoard .X 0 1 3 = true
    ∧ (∃ d ∈ directions, ∃ f bk : Nat,
        3 ≤ 1 + f + bk ∧ RunThrough demoFinishedBoard .X 0 1 d f bk) :=
  have h := check_win_iff_run_through demoFinishedBoard .X 0 1 3 (by decide) (by decide)
    (by rfl)
  ⟨by rfl, h.1 (by rfl)⟩
